import Mathlib

/-!
Verification of the cosima-cookbook catalog indexing engine
(`cosima_cookbook/database/database.py` and `models.py`).

The development shallow-embeds the indexing engine:
* time extraction (`update_timeinfo`): dates produced by `cftime.num2date`
  are modelled as points on an integer timeline measured in seconds, so that
  subtraction of two dates yields a Python `timedelta` (normalized
  `days`/`seconds` pair, days = floor division by 86400);
* per-file indexing (`index_file`): the netCDF dataset read is modelled by a
  `DatasetContent` value describing how the read unfolds (file missing,
  failure after some variables were enumerated, or a full read), and Python
  exception flow is modelled with `Except`;
* reconciliation (`index_experiment`, `prune_experiment`): the SQLAlchemy
  session is modelled as an explicit list of experiment records, each owning
  its file records, which in turn own their variable instances;
* interning (`as_unique` of the UniqueMixin): the helper itself lives in
  `database/utils.py`, which is not among the sources here, so it is
  modelled from the spec (transaction-scoped cache consulted before a
  lookup-or-create over the canonical rows, pending rows included), combined
  with the `unique_hash` / `unique_filter` definitions of `models.py`.
-/

namespace Cosima

/-! ### Time model -/

/-- A Python `datetime.timedelta` in normalized form: `days` may be negative,
`seconds` is always in `[0, 86400)`. -/
structure TimeDelta where
  days : Int
  seconds : Nat
deriving DecidableEq

/-- Build the normalized `timedelta` for a signed gap of `delta` seconds,
exactly as Python normalizes: `days` is floor division by 86400 and
`seconds` the (nonnegative) remainder. -/
def timedeltaOf (delta : Int) : TimeDelta :=
  ⟨Int.fdiv delta 86400, (Int.emod delta 86400).toNat⟩

/-- Python `round(a / b)` for integers `a` and positive `b`: round half to
even (banker's rounding), as Python's `round` does on the exact quotient. -/
def pyRound (a b : Int) : Int :=
  let q := Int.fdiv a b
  let r := a - q * b
  if 2 * r < b then q
  else if 2 * r > b then q + 1
  else if q % 2 = 0 then q else q + 1

/-- The frequency-classification chain of `update_timeinfo`
(database.py lines 108-117): an `if dt.days >= 365 / >= 28 / >= 1 / else`
cascade producing the stored frequency string. -/
def classifyFrequency (dt : TimeDelta) : String :=
  if dt.days ≥ 365 then toString (pyRound dt.days 365) ++ " yearly"
  else if dt.days ≥ 28 then toString (pyRound dt.days 30) ++ " monthly"
  else if dt.days ≥ 1 then toString dt.days ++ " daily"
  else toString (dt.seconds / 3600) ++ " hourly"

/-- The time variable of an open dataset, as `update_timeinfo` reads it:
its values (already mapped through `cftime.num2date` onto the integer
timeline), whether it carries `units` and `calendar` attributes, and the
bounds variable's rows (`some` exactly when the variable has a `bounds`
attribute). -/
structure TimeVar where
  times : List Int
  hasUnits : Bool
  hasCalendar : Bool
  bounds : Option (List (Int × Int))
deriving DecidableEq

/-- The fields `update_timeinfo` writes onto the file record on success. -/
structure TimeInfo where
  time_start : Int
  time_end : Int
  frequency : String
deriving DecidableEq

/-- Exceptions `update_timeinfo` can raise: `EmptyFileError` for a present
but zero-length time dimension, and an index error surrogate for an
out-of-range bounds access. -/
inductive TimeError where
  | emptyFile
  | indexError
deriving DecidableEq

instance {ε α : Type} [DecidableEq ε] [DecidableEq α] : DecidableEq (Except ε α) := fun a b =>
  match a, b with
  | .ok x, .ok y =>
    if h : x = y then isTrue (congrArg Except.ok h)
    else isFalse (fun he => h (Except.ok.inj he))
  | .error x, .error y =>
    if h : x = y then isTrue (congrArg Except.error h)
    else isFalse (fun he => h (Except.error.inj he))
  | .ok _, .error _ => isFalse (fun he => Except.noConfusion he)
  | .error _, .ok _ => isFalse (fun he => Except.noConfusion he)

/-- Embedding of `update_timeinfo` (database.py lines 62-124).  The argument is `none`
when `find_time_dimension` found no record dimension (early `return None`).
Otherwise: a zero-length time variable raises `EmptyFileError`; a variable
missing its `units` or its `calendar` attribute is skipped (`.ok none`,
nothing stored); else start/end come from the first lower and last upper
bound when bounds exist, or the first and last raw values, and the
frequency is classified from the first gap (`bounds[0][1] - bounds[0][0]`
with bounds, `times[1] - times[0]` without; `"static"` for a single sample
without bounds). -/
def update_timeinfo : Option TimeVar → Except TimeError (Option TimeInfo)
  | none => .ok none
  | some tv =>
    match tv.times with
    | [] => .error .emptyFile
    | t0 :: rest =>
      if !tv.hasUnits || !tv.hasCalendar then .ok none
      else
        match tv.bounds with
        | some bs =>
          match bs.head?, bs.getLast? with
          | some b0, some bl =>
            .ok (some ⟨b0.1, bl.2, classifyFrequency (timedeltaOf (b0.2 - b0.1))⟩)
          | _, _ => .error .indexError
        | none =>
          match rest with
          | [] => .ok (some ⟨t0, t0, "static"⟩)
          | t1 :: _ =>
            .ok (some ⟨t0, rest.getLastD t0, classifyFrequency (timedeltaOf (t1 - t0))⟩)

example : update_timeinfo (some ⟨[0, 86400], true, true, none⟩)
    = .ok (some ⟨0, 86400, "1 daily"⟩) := by decide

example : update_timeinfo (some ⟨[0, 400 * 86400], true, true, none⟩)
    = .ok (some ⟨0, 400 * 86400, "1 yearly"⟩) := by decide

example : update_timeinfo (some ⟨[7], true, true, none⟩)
    = .ok (some ⟨7, 7, "static"⟩) := by decide

/-! ### Per-file indexing model -/

/-- One variable of an open dataset, as `index_file` reads it: its name, the
recognized `CFVariable.attributes` (each `none` when absent from the file),
and the serialized dimension tuple and chunking. -/
structure VarData where
  name : String
  long_name : Option String
  standard_name : Option String
  units : Option String
  dimensions : String
  chunking : String
deriving DecidableEq

/-- A `CFVariable` stub as built inside `index_file` before interning:
name plus the recognized attributes. -/
structure CFVar where
  name : String
  long_name : Option String
  standard_name : Option String
  units : Option String
deriving DecidableEq

/-- An `NCVar` row: the variable stub it points at (`variable` is a Lean
keyword, so the field is `varRef`), serialized dimensions and chunking. -/
structure NCVarRec where
  varRef : CFVar
  dimensions : String
  chunking : String
deriving DecidableEq

/-- An `NCFile` row: relative path, presence flag, the time fields written by
`update_timeinfo` (`none` when never set), and the owned `NCVar` rows. -/
structure FileRec where
  ncfile : String
  present : Bool
  time_start : Option Int
  time_end : Option Int
  frequency : Option String
  ncvars : List NCVarRec
deriving DecidableEq

/-- How reading one netCDF file unfolds for `index_file`:
* `notFound` — opening raises `FileNotFoundError`;
* `failsAfter vars` — an exception is raised after `vars` were already
  enumerated and appended (malformed file);
* `ok vars timeVar` — the variable loop completes with `vars`, and
  `update_timeinfo` then sees time variable `timeVar` (`none` when the file
  has no record dimension). -/
inductive DatasetContent where
  | notFound
  | failsAfter (vars : List VarData)
  | ok (vars : List VarData) (timeVar : Option TimeVar)
deriving DecidableEq

/-- Build the `NCVar` row (with its embedded `CFVariable` stub) for one
dataset variable, as the loop body of `index_file` does. -/
def mkNCVar (v : VarData) : NCVarRec :=
  ⟨⟨v.name, v.long_name, v.standard_name, v.units⟩, v.dimensions, v.chunking⟩

/-- Embedding of `index_file` (database.py lines 127-169).  The record starts with
`present=False`; the `try` block appends an `NCVar` per variable and runs
`update_timeinfo`; only if both succeed is `present` set to `True`.
`FileNotFoundError` and any other exception are caught and logged, so the
function always returns the record, keeping whatever was appended to
`ncvars` before the failure. -/
def index_file (content : DatasetContent) (nm : String) : FileRec :=
  match content with
  | .notFound => ⟨nm, false, none, none, none, []⟩
  | .failsAfter vs => ⟨nm, false, none, none, none, vs.map mkNCVar⟩
  | .ok vs tv =>
    match update_timeinfo tv with
    | .error _ => ⟨nm, false, none, none, none, vs.map mkNCVar⟩
    | .ok none => ⟨nm, true, none, none, none, vs.map mkNCVar⟩
    | .ok (some ti) =>
      ⟨nm, true, some ti.time_start, some ti.time_end, some ti.frequency, vs.map mkNCVar⟩

/-! ### Reconciliation model -/

/-- An `NCExperiment` row with its owned `NCFile` rows. -/
structure ExperimentRec where
  experiment : String
  root_dir : String
  ncfiles : List FileRec
deriving DecidableEq

/-- The reconciliation loop of `index_experiment` (database.py lines
263-274) restricted to its effect on the existing rows: a row whose path is
among the freshly discovered files is kept as is; otherwise, when `prune` is
set it is deleted (`delete=True`) or has its presence flag cleared
(`delete=False`), and when `prune` is not set it is left alone. -/
def reconcileStale (ncfiles : List FileRec) (diskPaths : List String)
    (prune delete : Bool) : List FileRec :=
  ncfiles.filterMap fun fo =>
    if diskPaths.contains fo.ncfile then some fo
    else if prune then (if delete then none else some {fo with present := false})
    else some fo

/-- The files left in the `files` set after the reconciliation loop removed
every path already present in the catalog: exactly the on-disk files that
are new to this experiment. -/
def newDiskFiles (ncfiles : List FileRec)
    (onDisk : List (String × DatasetContent)) : List (String × DatasetContent) :=
  onDisk.filter fun p => !(ncfiles.any fun fo => fo.ncfile == p.1)

/-- The file-level phase of `index_experiment` for one experiment record:
reconcile the existing rows against the discovered paths, index every new
file, and attach the results to the experiment (`session.add_all`).
Returns the updated experiment and the list of newly indexed records. -/
def syncFiles (e : ExperimentRec) (onDisk : List (String × DatasetContent))
    (prune delete : Bool) : ExperimentRec × List FileRec :=
  let kept := reconcileStale e.ncfiles (onDisk.map Prod.fst) prune delete
  let results := (newDiskFiles e.ncfiles onDisk).map fun p => index_file p.2 p.1
  ({e with ncfiles := kept ++ results}, results)

/-- Embedding of `index_experiment` (database.py lines 202-294) over the catalog model.
The experiment is looked up by its (name, root_dir) pair; if it exists and
`update` was not requested, the call prints a message and returns 0 without
touching anything.  Otherwise the existing (or a fresh) experiment record is
reconciled against the discovered files and the count of newly indexed files
is returned, together with the printed messages. -/
def index_experiment (cat : List ExperimentRec) (nm rootDir : String)
    (onDisk : List (String × DatasetContent)) (update prune delete : Bool) :
    List ExperimentRec × Nat × List String :=
  match cat.find? (fun e => e.experiment == nm && e.root_dir == rootDir) with
  | some e =>
    if update then
      let res := syncFiles e onDisk prune delete
      (cat.map (fun x => if x.experiment == nm && x.root_dir == rootDir then res.1 else x),
       res.2.length, ["Indexing experiment: " ++ nm])
    else
      (cat, 0,
       ["Not re-indexing experiment: " ++ nm ++ "\nPass `update=True` to build_index()"])
  | none =>
    let res := syncFiles ⟨nm, rootDir, []⟩ onDisk prune delete
    (cat ++ [res.1], res.2.length, ["Indexing experiment: " ++ nm])

/-- The per-file loop of `prune_experiment` (database.py lines 348-355):
a row whose file no longer exists on disk **or** whose presence flag is
already false is deleted (`delete=True`) or marked not present
(`delete=False`); all other rows are kept.  `fsExists` models
`Path.exists` on the absolute path `root_dir / ncfile`. -/
def pruneFiles (rootDir : String) (fs : List FileRec) (fsExists : String → Bool)
    (delete : Bool) : List FileRec :=
  fs.filterMap fun f =>
    if !(fsExists (rootDir ++ "/" ++ f.ncfile)) || !f.present then
      (if delete then none else some {f with present := false})
    else some f

/-- Embedding of `prune_experiment` (database.py lines 332-357): look the experiment up
by name alone; if absent, print and return; otherwise apply `pruneFiles` to
its rows and commit. -/
def prune_experiment (cat : List ExperimentRec) (nm : String)
    (fsExists : String → Bool) (delete : Bool) : List ExperimentRec :=
  match cat.find? (fun e => e.experiment == nm) with
  | none => cat
  | some _ =>
    cat.map fun x =>
      if x.experiment == nm then
        {x with ncfiles := pruneFiles x.root_dir x.ncfiles fsExists delete}
      else x

/-- All `NCVar` rows owned by the given file rows (the catalog's
VariableInstances for those files). -/
def allNcvars (fs : List FileRec) : List NCVarRec :=
  fs.flatMap fun f => f.ncvars

/-! ### Interning (UniqueMixin) model -/

/-- Python `"{}".format` of a value that may be `None`. -/
def pyFormatOpt : Option String → String
  | some s => s
  | none => "None"

/-- Embedding of `CFVariable.unique_hash` (models.py lines 197-199):
`"{}_{}".format(name, long_name)`. -/
def cfvarHash (nm : String) (ln : Option String) : String :=
  nm ++ "_" ++ pyFormatOpt ln

/-- Lookup in the transaction-scoped interning cache (an association list
from unique-hash key to canonical row id). -/
def lookupCache (c : List (String × Nat)) (h : String) : Option Nat :=
  (c.find? fun p => p.1 == h).map Prod.snd

/-- A canonical `CFVariable` row. -/
structure VarRow where
  id : Nat
  name : String
  long_name : Option String
  standard_name : Option String
  units : Option String
deriving DecidableEq

/-- The canonical `variables` table as one unit of work sees it: the rows
(committed and pending), the transaction-scoped interning cache, and the
next fresh row id. -/
structure VarTable where
  rows : List VarRow
  cache : List (String × Nat)
  nextId : Nat
deriving DecidableEq

/-- Modelled from the spec: `CFVariable.as_unique` — the `UniqueMixin`
helper lives in `database/utils.py`, which is not among the sources here.
Per the spec (§4.4, §9) the interner keeps a transaction-scoped cache keyed
by the class's unique hash, consulted before any query; on a miss it looks
up the canonical rows — including rows created earlier in the same
uncommitted unit of work — with the class's unique filter, and constructs
and stages a new row only when none matches.  `unique_hash` and
`unique_filter` come from models.py: the hash is `"{name}_{long_name}"` and
the filter matches on `name` and `long_name` equality (standard_name and
units are ignored). -/
def cfvarAsUnique (st : VarTable) (v : CFVar) : VarTable × Nat :=
  let h := cfvarHash v.name v.long_name
  match lookupCache st.cache h with
  | some i => (st, i)
  | none =>
    match st.rows.find? (fun r => r.name == v.name && r.long_name == v.long_name) with
    | some r => ({st with cache := (h, r.id) :: st.cache}, r.id)
    | none =>
      ({rows := st.rows ++ [⟨st.nextId, v.name, v.long_name, v.standard_name, v.units⟩],
        cache := (h, st.nextId) :: st.cache,
        nextId := st.nextId + 1}, st.nextId)

/-- The merge loop of `index_experiment` (database.py lines 285-291): every
`NCVar` of the freshly indexed results has its variable replaced by the
canonical row obtained from `as_unique`.  The input is the flattened list of
variable stubs; the output pairs the final table with the canonical row id
assigned to each stub in order. -/
def internVars (st : VarTable) (vs : List CFVar) : VarTable × List Nat :=
  match vs with
  | [] => (st, [])
  | v :: rest =>
    let p := cfvarAsUnique st v
    let q := internVars p.1 rest
    (q.1, p.2 :: q.2)

/-- ASCII lowercasing of one character, the case folding SQLite's NOCASE
collation applies. -/
def lowerChar (c : Char) : Char :=
  if 'A' ≤ c ∧ c ≤ 'Z' then Char.ofNat (c.toNat + 32) else c

/-- ASCII lowercasing of a string (SQLite NOCASE case folding). -/
def asciiLower (s : String) : String :=
  ⟨s.data.map lowerChar⟩

/-- A `keywords` row: the `_keyword` column stores the string as given
(original case), under a NOCASE unique collation. -/
structure KwRow where
  id : Nat
  keyword : String
deriving DecidableEq

/-- The canonical `keywords` table as one unit of work sees it. -/
structure KwTable where
  rows : List KwRow
  cache : List (String × Nat)
  nextId : Nat
deriving DecidableEq

/-- Modelled from the spec: `Keyword.as_unique` — same `UniqueMixin`
discipline as `cfvarAsUnique` (`database/utils.py` is not among the sources
here; the spec's §4.4/§9 prescribe a transaction-scoped cache consulted
before a lookup-or-create over the canonical rows, pending rows included).
`unique_hash` and `unique_filter` come from models.py: the hash is the raw
keyword string, and the filter compares against the `_keyword` column,
whose NOCASE collation makes the comparison case-insensitive. -/
def keywordAsUnique (st : KwTable) (kw : String) : KwTable × Nat :=
  match lookupCache st.cache kw with
  | some i => (st, i)
  | none =>
    match st.rows.find? (fun r => asciiLower r.keyword == asciiLower kw) with
    | some r => ({st with cache := (kw, r.id) :: st.cache}, r.id)
    | none =>
      ({rows := st.rows ++ [⟨st.nextId, kw⟩],
        cache := (kw, st.nextId) :: st.cache,
        nextId := st.nextId + 1}, st.nextId)

/-! ### Generic list lemmas -/

theorem filterMap_guard {α : Type} (p : α → Bool) (l : List α) :
    (l.filterMap fun a => if p a then none else some a) = l.filter fun a => !p a := by
  induction l with
  | nil => rfl
  | cons x t ih =>
    rw [List.filterMap_cons]
    cases hp : p x <;> simp [List.filter_cons, hp, ih]

theorem filterMap_mark {α : Type} (p : α → Bool) (g : α → α) (l : List α) :
    (l.filterMap fun a => if p a then some (g a) else some a)
      = l.map fun a => if p a then g a else a := by
  induction l with
  | nil => rfl
  | cons x t ih =>
    rw [List.filterMap_cons]
    cases hp : p x <;> simp [hp, ih]

/-! ### Claim theorems -/

/-- The frequency table exactly as the claim states it, with two-sided
ranges: `dt.days >= 365` yearly; `28 <= dt.days < 365` monthly;
`1 <= dt.days < 28` daily; `dt.days < 1` hourly. -/
def freqClaimSpec (dt : TimeDelta) (s : String) : Prop :=
  (365 ≤ dt.days → s = toString (pyRound dt.days 365) ++ " yearly") ∧
  (28 ≤ dt.days ∧ dt.days < 365 → s = toString (pyRound dt.days 30) ++ " monthly") ∧
  (1 ≤ dt.days ∧ dt.days < 28 → s = toString dt.days ++ " daily") ∧
  (dt.days < 1 → s = toString (dt.seconds / 3600) ++ " hourly")

theorem classifyFrequency_meets_spec (dt : TimeDelta) :
    freqClaimSpec dt (classifyFrequency dt) := by
  unfold freqClaimSpec classifyFrequency
  refine ⟨?_, ?_, ?_, ?_⟩ <;> intro h <;> split_ifs <;> first | rfl | omega

/-- C1: for a file whose time dimension has at least two samples (or has
bounds), the stored frequency string is classified from the gap `dt`
between the first time value (or its first upper bound, when bounds exist)
and the second (`dt.days >= 365` → yearly, `28 <= dt.days < 365` → monthly,
`1 <= dt.days < 28` → daily, `dt.days < 1` → hourly); a file with exactly
one time sample and no bounds yields `"static"`. -/
theorem frequency_classification (tv : TimeVar) (t0 : Int) (rest : List Int)
    (ht : tv.times = t0 :: rest) (hU : tv.hasUnits = true) (hC : tv.hasCalendar = true) :
    (∀ bs b0 bl, tv.bounds = some bs → bs.head? = some b0 → bs.getLast? = some bl →
      update_timeinfo (some tv)
        = .ok (some ⟨b0.1, bl.2, classifyFrequency (timedeltaOf (b0.2 - b0.1))⟩) ∧
      freqClaimSpec (timedeltaOf (b0.2 - b0.1))
        (classifyFrequency (timedeltaOf (b0.2 - b0.1)))) ∧
    (∀ t1 rest2, tv.bounds = none → rest = t1 :: rest2 →
      update_timeinfo (some tv)
        = .ok (some ⟨t0, rest.getLastD t0, classifyFrequency (timedeltaOf (t1 - t0))⟩) ∧
      freqClaimSpec (timedeltaOf (t1 - t0)) (classifyFrequency (timedeltaOf (t1 - t0)))) ∧
    (tv.bounds = none → rest = [] →
      update_timeinfo (some tv) = .ok (some ⟨t0, t0, "static"⟩)) := by
  obtain ⟨times, hu, hc, bounds⟩ := tv
  simp only at ht hU hC
  subst ht hU hC
  refine ⟨?_, ?_, ?_⟩
  · intro bs b0 bl hb h0 hl
    subst hb
    exact ⟨by simp [update_timeinfo, h0, hl], classifyFrequency_meets_spec _⟩
  · intro t1 rest2 hb hr
    subst hb hr
    exact ⟨by simp [update_timeinfo], classifyFrequency_meets_spec _⟩
  · intro hb hr
    subst hb hr
    simp [update_timeinfo]

theorem frequency_classification_witness :
    update_timeinfo (some ⟨[0, 86400], true, true, none⟩)
      = Except.ok (some ⟨0, 86400, "1 daily"⟩) := by
  have h := (frequency_classification ⟨[0, 86400], true, true, none⟩ 0 [86400]
      rfl rfl rfl).2.1 86400 [] rfl rfl
  rw [h.1]
  decide

/-- C2: during reconciliation, a catalog row whose path is on disk is kept;
for stale rows: `prune=false` leaves every row untouched regardless of
`delete`; `prune=true, delete=true` deletes exactly the stale rows (and,
rows owning their `NCVar`s, all their VariableInstances with them);
`prune=true, delete=false` retains every stale row with `present` cleared
and, as the last conjunct shows, leaves all VariableInstances untouched. -/
theorem stale_file_policy (fs : List FileRec) (d : List String) (del : Bool) :
    reconcileStale fs d false del = fs ∧
    reconcileStale fs d true true = fs.filter (fun fo => d.contains fo.ncfile) ∧
    reconcileStale fs d true false
      = fs.map (fun fo => if d.contains fo.ncfile then fo else {fo with present := false}) ∧
    allNcvars (reconcileStale fs d true false) = allNcvars fs := by
  have h1 : reconcileStale fs d false del = fs := by
    induction fs with
    | nil => rfl
    | cons f t ih =>
      by_cases hc : d.contains f.ncfile <;>
        simp only [reconcileStale, List.filterMap_cons, hc, if_true, if_false,
          Bool.false_eq_true, ite_false, ite_true] <;>
        simp_all [reconcileStale]
  have h2 : reconcileStale fs d true true = fs.filter (fun fo => d.contains fo.ncfile) := by
    induction fs with
    | nil => rfl
    | cons f t ih =>
      by_cases hc : d.contains f.ncfile <;>
        simp_all [reconcileStale, List.filterMap_cons, List.filter_cons, hc]
  have h3 : reconcileStale fs d true false
      = fs.map (fun fo => if d.contains fo.ncfile then fo else {fo with present := false}) := by
    induction fs with
    | nil => rfl
    | cons f t ih =>
      by_cases hc : d.contains f.ncfile <;>
        simp_all [reconcileStale, List.filterMap_cons, hc]
  refine ⟨h1, h2, h3, ?_⟩
  rw [h3]
  unfold allNcvars
  rw [List.flatMap_map]
  apply List.flatMap_congr
  intro fo _
  by_cases hc : fo.ncfile ∈ d <;> simp [hc]

/-- A present catalog row for `a.nc`, used in the C3 counterexample. -/
def fileA : FileRec := ⟨"a.nc", true, none, none, none, []⟩

/-- A catalog experiment owning only `a.nc`, used in the C3 counterexample. -/
def exptA : ExperimentRec := ⟨"e", "/r", [fileA]⟩

/-- C3 counterexample: `update=true` on an experiment whose single file
`a.nc` is both on disk and in the catalog re-indexes nothing — the newly
indexed count is 0 and the catalog still holds the untouched original row,
no fresh record — contradicting the claim that setting the update flag
causes an unchanged file to be re-indexed. -/
theorem unchanged_not_reindexed_cex :
    (index_experiment [exptA] "e" "/r" [("a.nc", .ok [] none)] true true true).2.1 = 0 ∧
    (index_experiment [exptA] "e" "/r" [("a.nc", .ok [] none)] true true true).1
      = [exptA] := by
  decide

/-- C3 (amended): files both on disk and in the catalog (the unchanged
class) are always skipped — the update flag does not cause them to be
re-indexed; with `update=true` on an existing experiment the newly indexed
count equals the number of on-disk files absent from the catalog (the new
class, which is indexed), the indexed records are exactly those files' and
every unchanged row survives verbatim. -/
theorem reconciliation_classes (cat : List ExperimentRec) (nm rd : String)
    (e : ExperimentRec) (onDisk : List (String × DatasetContent)) (prune del : Bool)
    (hfind : cat.find? (fun x => x.experiment == nm && x.root_dir == rd) = some e) :
    (index_experiment cat nm rd onDisk true prune del).2.1
        = (newDiskFiles e.ncfiles onDisk).length ∧
    (syncFiles e onDisk prune del).2
        = (newDiskFiles e.ncfiles onDisk).map (fun p => index_file p.2 p.1) ∧
    ∀ fo ∈ e.ncfiles, (onDisk.map Prod.fst).contains fo.ncfile = true →
      fo ∈ (syncFiles e onDisk prune del).1.ncfiles := by
  refine ⟨?_, rfl, ?_⟩
  · simp [index_experiment, hfind, syncFiles]
  · intro fo hmem hc
    have : fo ∈ reconcileStale e.ncfiles (onDisk.map Prod.fst) prune del := by
      unfold reconcileStale
      exact List.mem_filterMap.mpr ⟨fo, hmem, by rw [if_pos hc]⟩
    simp only [syncFiles]
    exact List.mem_append_left _ this

theorem reconciliation_classes_witness :
    (index_experiment [⟨"e", "/r", [⟨"old.nc", true, none, none, none, []⟩]⟩] "e" "/r"
        [("new.nc", DatasetContent.ok [] none)] true true true).2.1
      = (newDiskFiles [⟨"old.nc", true, none, none, none, []⟩]
          [("new.nc", DatasetContent.ok [] none)]).length :=
  (reconciliation_classes [⟨"e", "/r", [⟨"old.nc", true, none, none, none, []⟩]⟩]
      "e" "/r" ⟨"e", "/r", [⟨"old.nc", true, none, none, none, []⟩]⟩
      [("new.nc", DatasetContent.ok [] none)] true true rfl).1

/-- Whether an `Except` computation completed without raising. -/
def exceptIsOk {ε α : Type} : Except ε α → Bool
  | .ok _ => true
  | .error _ => false

/-- C4 (amended): `index_file` never raises — it is total and returns a
record for every outcome: a missing file yields a present=false record
with no variables; any other failure during extraction yields a
present=false record that **retains** (not discards) the variables
gathered before the failure; the presence flag is true exactly when
extraction fully succeeded. -/
theorem index_file_boundary (nm : String) :
    index_file .notFound nm = ⟨nm, false, none, none, none, []⟩ ∧
    (∀ vs, index_file (.failsAfter vs) nm
      = ⟨nm, false, none, none, none, vs.map mkNCVar⟩) ∧
    (∀ vs tv, (index_file (.ok vs tv) nm).ncvars = vs.map mkNCVar ∧
      (index_file (.ok vs tv) nm).present = exceptIsOk (update_timeinfo tv)) := by
  refine ⟨rfl, fun vs => rfl, fun vs tv => ?_⟩
  cases h : update_timeinfo tv with
  | error e => simp [index_file, h, exceptIsOk]
  | ok o => cases o <;> simp [index_file, h, exceptIsOk]

/-- A time variable whose unlimited dimension has no data, for the C4 and
C7 witnesses. -/
def tvEmpty : TimeVar := ⟨[], true, true, none⟩

/-- A dataset variable, for the C4 and C7 witnesses. -/
def vTemp : VarData := ⟨"temp", some "T", none, some "K", "(time,)", "[1]"⟩

/-- C4 counterexample: a file that opens, yields one variable, and then
fails time extraction (`EmptyFileError`) is returned with presence=false
but with the partially gathered variable still attached — the partial data
is retained, not discarded as the claim states. -/
theorem partial_data_not_discarded_cex :
    (index_file (.ok [vTemp] (some tvEmpty)) "a.nc").present = false ∧
    (index_file (.ok [vTemp] (some tvEmpty)) "a.nc").ncvars ≠ [] := by
  decide

/-- C9: indexing an experiment that already exists in the catalog with
`update=false` is a no-op: the catalog is returned unchanged, the newly
indexed count is 0, and the user-visible message is printed. -/
theorem existing_experiment_noop (cat : List ExperimentRec) (nm rd : String)
    (e : ExperimentRec) (onDisk : List (String × DatasetContent)) (prune del : Bool)
    (hfind : cat.find? (fun x => x.experiment == nm && x.root_dir == rd) = some e) :
    index_experiment cat nm rd onDisk false prune del
      = (cat, 0,
         ["Not re-indexing experiment: " ++ nm
           ++ "\nPass `update=True` to build_index()"]) := by
  simp [index_experiment, hfind]

theorem existing_experiment_noop_witness :
    index_experiment [exptA] "e" "/r" [("b.nc", DatasetContent.ok [] none)] false true true
      = ([exptA], 0,
         ["Not re-indexing experiment: " ++ "e"
           ++ "\nPass `update=True` to build_index()"]) :=
  existing_experiment_noop [exptA] "e" "/r" exptA
    [("b.nc", DatasetContent.ok [] none)] true true rfl

/-- C10: `prune_experiment` treats a row as prunable when its file no
longer exists on disk **or** when its presence flag is already false — the
kept rows are exactly those whose file exists and whose flag is true; with
`delete=true` prunable rows are removed, with `delete=false` they are kept
with `present` cleared, even if the underlying file still exists. -/
theorem prune_absent_or_flagged (root nm : String) (fs : List FileRec)
    (ex : String → Bool) :
    pruneFiles root fs ex true
        = fs.filter (fun f => ex (root ++ "/" ++ f.ncfile) && f.present) ∧
    pruneFiles root fs ex false
        = fs.map (fun f =>
            if ex (root ++ "/" ++ f.ncfile) && f.present then f
            else {f with present := false}) ∧
    prune_experiment [⟨nm, root, fs⟩] nm ex true
        = [⟨nm, root, fs.filter (fun f => ex (root ++ "/" ++ f.ncfile) && f.present)⟩] ∧
    prune_experiment [⟨nm, root, fs⟩] nm ex false
        = [⟨nm, root, fs.map (fun f =>
            if ex (root ++ "/" ++ f.ncfile) && f.present then f
            else {f with present := false})⟩] := by
  have h1 : pruneFiles root fs ex true
      = fs.filter (fun f => ex (root ++ "/" ++ f.ncfile) && f.present) := by
    calc pruneFiles root fs ex true
        = fs.filter (fun f => !(!ex (root ++ "/" ++ f.ncfile) || !f.present)) :=
          filterMap_guard (fun f : FileRec => !ex (root ++ "/" ++ f.ncfile) || !f.present) fs
      _ = fs.filter (fun f => ex (root ++ "/" ++ f.ncfile) && f.present) := by
          apply List.filter_congr
          intro f _
          simp [Bool.not_or]
  have h2 : pruneFiles root fs ex false
      = fs.map (fun f =>
          if ex (root ++ "/" ++ f.ncfile) && f.present then f
          else {f with present := false}) := by
    calc pruneFiles root fs ex false
        = fs.map (fun f =>
            if !ex (root ++ "/" ++ f.ncfile) || !f.present then {f with present := false}
            else f) :=
          filterMap_mark (fun f : FileRec => !ex (root ++ "/" ++ f.ncfile) || !f.present)
            (fun f => {f with present := false}) fs
      _ = fs.map (fun f =>
            if ex (root ++ "/" ++ f.ncfile) && f.present then f
            else {f with present := false}) := by
          apply List.map_congr_left
          intro f _
          by_cases ha : ex (root ++ "/" ++ f.ncfile) <;> by_cases hb : f.present <;>
            simp [ha, hb]
  refine ⟨h1, h2, ?_, ?_⟩ <;> simp [prune_experiment, h1, h2]

/-- C7: a file whose time (record) dimension exists but has zero length
makes `update_timeinfo` raise `EmptyFileError`; `index_file` catches it and
returns the record with `present=false`; the record still lands in the
reconciled experiment's results, and every sibling file of the batch is
still indexed (the error never propagates past `index_file`). -/
theorem empty_time_dimension (tv : TimeVar) (vs : List VarData) (nm n rd : String)
    (restDisk : List (String × DatasetContent)) (prune del : Bool)
    (hempty : tv.times = []) :
    update_timeinfo (some tv) = .error .emptyFile ∧
    (index_file (.ok vs (some tv)) nm).present = false ∧
    index_file (.ok vs (some tv)) nm
      ∈ (syncFiles ⟨n, rd, []⟩ ((nm, .ok vs (some tv)) :: restDisk) prune del).2 ∧
    (syncFiles ⟨n, rd, []⟩ ((nm, .ok vs (some tv)) :: restDisk) prune del).2.length
      = restDisk.length + 1 := by
  have h1 : update_timeinfo (some tv) = .error .emptyFile := by
    obtain ⟨ts, u, c, b⟩ := tv
    simp only at hempty
    subst hempty
    rfl
  have h2 : (index_file (.ok vs (some tv)) nm).present = false := by
    simp [index_file, h1]
  refine ⟨h1, h2, ?_, ?_⟩ <;> simp [syncFiles, newDiskFiles]

theorem empty_time_dimension_witness :
    update_timeinfo (some tvEmpty) = .error .emptyFile ∧
    (index_file (.ok [vTemp] (some tvEmpty)) "a.nc").present = false ∧
    index_file (.ok [vTemp] (some tvEmpty)) "a.nc"
      ∈ (syncFiles ⟨"e", "/r", []⟩ [("a.nc", .ok [vTemp] (some tvEmpty))] true true).2 ∧
    (syncFiles ⟨"e", "/r", []⟩ [("a.nc", .ok [vTemp] (some tvEmpty))] true true).2.length
      = ([] : List (String × DatasetContent)).length + 1 :=
  empty_time_dimension tvEmpty [vTemp] "a.nc" "e" "/r" [] true true rfl

/-- A time variable with two samples, a units attribute, but no calendar
attribute, for the C8 counterexample and witness. -/
def tvUnitsOnly : TimeVar := ⟨[0, 86400], true, false, none⟩

/-- C8 counterexample: a nonempty time variable carrying `units` but no
`calendar` is skipped by the code (`.ok none`: no time info extracted),
refuting the claim that extraction is skipped precisely when **both**
attributes are missing and proceeds when at least one is present. -/
theorem skip_condition_cex :
    ¬ ((update_timeinfo (some tvUnitsOnly) = Except.ok none) ↔
        (tvUnitsOnly.hasUnits = false ∧ tvUnitsOnly.hasCalendar = false)) := by
  decide

/-- C8 (amended): for a file whose time dimension exists and is non-empty,
time extraction is skipped (without error) precisely when the time variable
lacks its units attribute **or** lacks its calendar attribute; extraction
proceeds only when both attributes are present. -/
theorem skip_condition (tv : TimeVar) (t0 : Int) (rest : List Int)
    (ht : tv.times = t0 :: rest) :
    (update_timeinfo (some tv) = .ok none) ↔
      (tv.hasUnits = false ∨ tv.hasCalendar = false) := by
  obtain ⟨ts, u, c, b⟩ := tv
  simp only at ht
  subst ht
  cases u <;> cases c <;> simp [update_timeinfo]
  cases b with
  | none => cases rest <;> simp [update_timeinfo]
  | some bs =>
    cases bs with
    | nil => simp [update_timeinfo]
    | cons b0 bt =>
      obtain ⟨bl, hbl⟩ : ∃ bl, (b0 :: bt).getLast? = some bl :=
        ⟨(b0 :: bt).getLast (by simp), List.getLast?_eq_getLast _ (by simp)⟩
      simp [update_timeinfo, hbl]

theorem skip_condition_witness :
    (update_timeinfo (some tvUnitsOnly) = .ok none) ↔
      (tvUnitsOnly.hasUnits = false ∨ tvUnitsOnly.hasCalendar = false) :=
  skip_condition tvUnitsOnly 0 [86400] rfl

theorem find?_ext {α : Type} (p q : α → Bool) (l : List α) (h : ∀ a, p a = q a) :
    l.find? p = l.find? q := by
  induction l with
  | nil => rfl
  | cons x t ih => rw [List.find?_cons, List.find?_cons, h x, ih]

theorem find?_append_none {α : Type} (p : α → Bool) (l₁ l₂ : List α)
    (h : l₁.find? p = none) : (l₁ ++ l₂).find? p = l₂.find? p := by
  induction l₁ with
  | nil => rfl
  | cons x t ih =>
    rw [List.find?_cons] at h
    rw [List.cons_append, List.find?_cons]
    cases hp : p x with
    | true => rw [hp] at h; exact Option.noConfusion h
    | false => rw [hp] at h; exact ih h

theorem internVars_cached (st : VarTable) (vs : List CFVar) (n : String)
    (ln : Option String) (i : Nat)
    (hvs : ∀ v ∈ vs, v.name = n ∧ v.long_name = ln)
    (hc : lookupCache st.cache (cfvarHash n ln) = some i) :
    internVars st vs = (st, List.replicate vs.length i) := by
  induction vs with
  | nil => rfl
  | cons v rest ih =>
    obtain ⟨hn, hl⟩ := hvs v (List.mem_cons_self v rest)
    have hu : cfvarAsUnique st v = (st, i) := by
      simp only [cfvarAsUnique, hn, hl, hc]
    have ht := ih (fun w hw => hvs w (List.mem_cons_of_mem v hw))
    simp [internVars, hu, ht, List.replicate_succ]

/-- C5: within one reconciliation transaction, interning of variable
definitions is keyed only on (name, long_name): interning the same pair
N ≥ 1 times — the leading stub `v0` followed by `rest`, with arbitrary
(possibly differing) units and standard_name values — stages exactly one
new canonical row (carrying the first stub's attributes) and returns that
row's id for every one of the N variable instances. -/
theorem cfvariable_interning (st : VarTable) (v0 : CFVar) (rest : List CFVar)
    (n : String) (ln : Option String)
    (hcache : st.cache = [])
    (hnone : st.rows.find? (fun r => r.name == n && r.long_name == ln) = none)
    (hv0 : v0.name = n ∧ v0.long_name = ln)
    (hrest : ∀ v ∈ rest, v.name = n ∧ v.long_name = ln) :
    (internVars st (v0 :: rest)).1.rows
        = st.rows ++ [⟨st.nextId, n, ln, v0.standard_name, v0.units⟩] ∧
    (internVars st (v0 :: rest)).2 = List.replicate (rest.length + 1) st.nextId := by
  obtain ⟨hn, hl⟩ := hv0
  have hlook : lookupCache st.cache (cfvarHash n ln) = none := by
    rw [hcache]; rfl
  have hfirst : cfvarAsUnique st v0 =
      ({rows := st.rows ++ [⟨st.nextId, n, ln, v0.standard_name, v0.units⟩],
        cache := (cfvarHash n ln, st.nextId) :: st.cache,
        nextId := st.nextId + 1}, st.nextId) := by
    simp only [cfvarAsUnique, hn, hl, hlook, hnone]
  have hcached : lookupCache ((cfvarHash n ln, st.nextId) :: st.cache) (cfvarHash n ln)
      = some st.nextId := by
    simp [lookupCache]
  have hrest' := internVars_cached
      ({rows := st.rows ++ [⟨st.nextId, n, ln, v0.standard_name, v0.units⟩],
        cache := (cfvarHash n ln, st.nextId) :: st.cache,
        nextId := st.nextId + 1}) rest n ln st.nextId hrest hcached
  constructor
  · show (internVars st (v0 :: rest)).1.rows = _
    simp [internVars, hfirst, hrest']
  · show (internVars st (v0 :: rest)).2 = _
    simp [internVars, hfirst, hrest', List.replicate_succ]

theorem cfvariable_interning_witness :
    (internVars ⟨[], [], 0⟩
        [⟨"temp", some "T", none, some "K"⟩, ⟨"temp", some "T", none, some "degC"⟩]).1.rows
      = [⟨0, "temp", some "T", none, some "K"⟩] ∧
    (internVars ⟨[], [], 0⟩
        [⟨"temp", some "T", none, some "K"⟩, ⟨"temp", some "T", none, some "degC"⟩]).2
      = List.replicate 2 0 := by
  have h := cfvariable_interning ⟨[], [], 0⟩ ⟨"temp", some "T", none, some "K"⟩
      [⟨"temp", some "T", none, some "degC"⟩] "temp" (some "T") rfl rfl ⟨rfl, rfl⟩
      (by intro v hv; simp only [List.mem_singleton] at hv; subst hv; exact ⟨rfl, rfl⟩)
  simpa using h

/-- C6: keyword interning is case-insensitive: starting from a fresh unit
of work (empty interning cache), interning any two strings with the same
case folding — such as "Ocean" and "ocean" — yields the same canonical
Keyword row, and at most one new row is created. -/
theorem keyword_interning_nocase (st : KwTable) (s t : String)
    (hcache : st.cache = []) (hlow : asciiLower s = asciiLower t) :
    (keywordAsUnique (keywordAsUnique st s).1 t).2 = (keywordAsUnique st s).2 ∧
    (keywordAsUnique (keywordAsUnique st s).1 t).1.rows.length
      ≤ st.rows.length + 1 := by
  have hpred : ∀ r : KwRow,
      (asciiLower r.keyword == asciiLower s) = (asciiLower r.keyword == asciiLower t) := by
    intro r; rw [hlow]
  have hlooks : lookupCache st.cache s = none := by rw [hcache]; rfl
  cases hfind : st.rows.find? (fun r => asciiLower r.keyword == asciiLower s) with
  | some r =>
    have hfirst : keywordAsUnique st s = ({st with cache := [(s, r.id)]}, r.id) := by
      unfold keywordAsUnique
      rw [hlooks, hfind, hcache]
    rw [hfirst]
    by_cases hts : s == t
    · have hb : (s == t) = true := hts
      have hluk : lookupCache [(s, r.id)] t = some r.id := by
        simp [lookupCache, List.find?_cons, hb]
      constructor
      · show (keywordAsUnique {st with cache := [(s, r.id)]} t).2 = r.id
        unfold keywordAsUnique
        rw [hluk]
      · show (keywordAsUnique {st with cache := [(s, r.id)]} t).1.rows.length ≤ _
        unfold keywordAsUnique
        rw [hluk]
        simp
    · have hb : (s == t) = false := by simpa using hts
      have hluk : lookupCache [(s, r.id)] t = none := by
        simp [lookupCache, List.find?_cons, hb]
      have hfind' : st.rows.find? (fun r => asciiLower r.keyword == asciiLower t)
          = some r := by
        rw [← find?_ext _ _ _ hpred, hfind]
      constructor
      · show (keywordAsUnique {st with cache := [(s, r.id)]} t).2 = r.id
        unfold keywordAsUnique
        rw [hluk]
        simp only []
        rw [hfind']
      · show (keywordAsUnique {st with cache := [(s, r.id)]} t).1.rows.length ≤ _
        unfold keywordAsUnique
        rw [hluk]
        simp only []
        rw [hfind']
        simp
  | none =>
    have hfirst : keywordAsUnique st s =
        ({rows := st.rows ++ [⟨st.nextId, s⟩], cache := [(s, st.nextId)],
          nextId := st.nextId + 1}, st.nextId) := by
      unfold keywordAsUnique
      rw [hlooks, hfind, hcache]
    rw [hfirst]
    by_cases hts : s == t
    · have hb : (s == t) = true := hts
      have hluk : lookupCache [(s, st.nextId)] t = some st.nextId := by
        simp [lookupCache, List.find?_cons, hb]
      constructor
      · show (keywordAsUnique _ t).2 = st.nextId
        unfold keywordAsUnique
        rw [hluk]
      · show (keywordAsUnique _ t).1.rows.length ≤ _
        unfold keywordAsUnique
        rw [hluk]
        simp
    · have hb : (s == t) = false := by simpa using hts
      have hluk : lookupCache [(s, st.nextId)] t = none := by
        simp [lookupCache, List.find?_cons, hb]
      have hfindt : st.rows.find? (fun r => asciiLower r.keyword == asciiLower t) = none := by
        rw [← find?_ext _ _ _ hpred]; exact hfind
      have hone : (asciiLower (⟨st.nextId, s⟩ : KwRow).keyword == asciiLower t) = true := by
        simp [hlow]
      have hfind' : (st.rows ++ [(⟨st.nextId, s⟩ : KwRow)]).find?
          (fun r => asciiLower r.keyword == asciiLower t) = some ⟨st.nextId, s⟩ := by
        rw [find?_append_none _ _ _ hfindt, List.find?_cons, hone]
      constructor
      · show (keywordAsUnique _ t).2 = st.nextId
        unfold keywordAsUnique
        rw [hluk]
        simp only []
        rw [hfind']
      · show (keywordAsUnique _ t).1.rows.length ≤ _
        unfold keywordAsUnique
        rw [hluk]
        simp only []
        rw [hfind']
        simp

theorem keyword_interning_nocase_witness :
    (keywordAsUnique (keywordAsUnique ⟨[], [], 0⟩ "Ocean").1 "ocean").2
      = (keywordAsUnique ⟨[], [], 0⟩ "Ocean").2 ∧
    (keywordAsUnique (keywordAsUnique ⟨[], [], 0⟩ "Ocean").1 "ocean").1.rows.length
      ≤ ([] : List KwRow).length + 1 :=
  keyword_interning_nocase ⟨[], [], 0⟩ "Ocean" "ocean" rfl (by decide)

end Cosima
